import Mathlib

/-!
Verification of the client-side reconciliation core of a small blog front end.

The development shallowly embeds the TypeScript source:
* the localStorage persistence layer (my-app/src/lib/local-storage.ts),
* the merge / dedup / sort pipeline of the post list (PostList.tsx),
* the create-failure fallback writer (PostForm.tsx), and
* the deletion flow of the detail view (PostDetail).

JavaScript strings are Lean `String`s, arrays are `List`s, and the
nondeterministic environment (Date.now, Math.random, window presence,
storage health, remote outcome) is passed explicitly as parameters.
-/

/-! ### JavaScript string primitives -/

/-- Embeds the test that a character list begins with a given pattern,
the character-level core of JavaScript's startsWith. -/
def strStarts : List Char → List Char → Bool
  | _, [] => true
  | [], _ :: _ => false
  | c :: cs, d :: ds => c == d && strStarts cs ds

/-- Embeds substring search on character lists, the core of
JavaScript's String.includes. -/
def strHasSub : List Char → List Char → Bool
  | [], sub => sub.isEmpty
  | c :: cs, sub => strStarts (c :: cs) sub || strHasSub cs sub

/-- Embeds JavaScript's s.includes(sub). -/
def jsIncludes (s sub : String) : Bool :=
  strHasSub s.data sub.data

/-- Embeds JavaScript's id.startsWith('local_') used by the detail view. -/
def isLocalId (id : String) : Bool :=
  strStarts id.data "local_".data

/-- Embeds the JavaScript idiom (s || dflt) on an optional string: both an
absent string and the empty string fall back to the default. -/
def jsOrElse (s : Option String) (dflt : String) : String :=
  match s with
  | some v => if v = "" then dflt else v
  | none => dflt

/-! ### Data model (local-storage.ts) -/

/-- Author record carried inside a LocalPost (local-storage.ts, lines 9-13). -/
structure PostAuthor where
  id : String
  name : String
  avatarUrl : Option String
deriving DecidableEq

/-- LocalPost as declared in local-storage.ts, lines 3-14. -/
structure LocalPost where
  id : String
  title : String
  body : String
  tags : List String
  publishedAt : String
  author : PostAuthor
deriving DecidableEq

/-- Author summary as rendered in the list view (only the name is kept). -/
structure ListedAuthor where
  name : String
deriving DecidableEq

/-- Post summary as displayed by PostList (id, title, publishedAt,
author name), the shape produced at PostList.tsx lines 63-70. -/
structure ListedPost where
  id : String
  title : String
  publishedAt : String
  author : ListedAuthor
deriving DecidableEq

/-! ### Local persistence (local-storage.ts)

The browser environment is explicit: a RawStore is what sits under the
'blog_posts' key (absent, unparsable JSON, or a well-formed collection) and
a StorageEnv says whether a window exists and whether a write would throw.
Every operation is total: each try/catch of the source is embedded by
returning the fallback value of its catch branch. -/

/-- State of the underlying localStorage entry. -/
inductive RawStore
  | absent
  | corrupt
  | good (posts : List LocalPost)
deriving DecidableEq

/-- Browser-environment flags: is a window object present, and does a
localStorage write throw (e.g. quota exceeded). -/
structure StorageEnv where
  hasWindow : Bool
  writeFails : Bool
deriving DecidableEq

/-- Embeds getLocalPosts (local-storage.ts lines 19-30): no window, absent
key and corrupt JSON all yield the empty collection. -/
def getLocalPosts (env : StorageEnv) (s : RawStore) : List LocalPost :=
  if env.hasWindow then
    match s with
    | RawStore.absent => []
    | RawStore.corrupt => []
    | RawStore.good posts => posts
  else []

/-- Embeds Array.findIndex over the collection, as an optional index. -/
def jsFindIndex (f : LocalPost → Bool) : List LocalPost → Option Nat
  | [] => none
  | p :: ps => if f p then some 0 else (jsFindIndex f ps).map (· + 1)

/-- The in-memory update step of saveLocalPost (lines 39-44): replace the
first entry with the same id in place, or push at the end. -/
def upsertPost (post : LocalPost) (posts : List LocalPost) : List LocalPost :=
  match jsFindIndex (fun p => p.id == post.id) posts with
  | some i => posts.set i post
  | none => posts ++ [post]

/-- Embeds saveLocalPost (local-storage.ts lines 33-49): read the current
collection (never throwing), upsert, and write back; a missing window or a
throwing write leaves the store unchanged. -/
def saveLocalPost (env : StorageEnv) (post : LocalPost) (s : RawStore) : RawStore :=
  if env.hasWindow then
    if env.writeFails then s
    else RawStore.good (upsertPost post (getLocalPosts env s))
  else s

/-- The in-memory step of deleteLocalPost (line 57): keep every entry whose
id differs. -/
def removeId (id : String) (posts : List LocalPost) : List LocalPost :=
  posts.filter (fun p => !(p.id == id))

/-- Embeds deleteLocalPost (local-storage.ts lines 52-62). -/
def deleteLocalPost (env : StorageEnv) (id : String) (s : RawStore) : RawStore :=
  if env.hasWindow then
    if env.writeFails then s
    else RawStore.good (removeId id (getLocalPosts env s))
  else s

/-- Embeds getLocalPost (local-storage.ts lines 65-68). -/
def getLocalPost (env : StorageEnv) (id : String) (s : RawStore) : Option LocalPost :=
  (getLocalPosts env s).find? (fun p => p.id == id)

/-- Embeds generateLocalPostId (local-storage.ts lines 71-73); Date.now()
and the random suffix are parameters of the embedding. -/
def generateLocalPostId (now : Nat) (rand : String) : String :=
  "local_" ++ toString now ++ "_" ++ rand

/-! ### Timestamp parsing

PostList sorts by new Date(p.publishedAt).getTime(). The embedding parses
the canonical ISO-8601 UTC profile YYYY-MM-DDTHH:MM:SS(.fff)?Z into
milliseconds since the Unix epoch (years 1970-9999); any other string is
treated as unparsable, matching the spec's restriction to well-formed
timestamps. -/

/-- Numeric value of a decimal digit character. -/
def digitVal (c : Char) : Option Nat :=
  if c.isDigit then some (c.toNat - 48) else none

/-- Two-digit decimal number. -/
def d2 (a b : Char) : Option Nat := do
  let x ← digitVal a
  let y ← digitVal b
  pure (10 * x + y)

/-- Three-digit decimal number. -/
def d3 (a b c : Char) : Option Nat := do
  let x ← digitVal a
  let y ← d2 b c
  pure (100 * x + y)

/-- Four-digit decimal number. -/
def d4 (a b c d : Char) : Option Nat := do
  let x ← d2 a b
  let y ← d2 c d
  pure (100 * x + y)

/-- Gregorian leap-year test. -/
def isLeapYear (y : Nat) : Bool :=
  (y % 4 == 0 && y % 100 != 0) || y % 400 == 0

/-- Days in a month of a given year (0 for an invalid month index). -/
def daysInMonth (y m : Nat) : Nat :=
  match m with
  | 1 => 31
  | 2 => if isLeapYear y then 29 else 28
  | 3 => 31
  | 4 => 30
  | 5 => 31
  | 6 => 30
  | 7 => 31
  | 8 => 31
  | 9 => 30
  | 10 => 31
  | 11 => 30
  | 12 => 31
  | _ => 0

/-- Number of leap years in the interval [1, y]. -/
def leapCount (y : Nat) : Nat :=
  y / 4 - y / 100 + y / 400

/-- Days from 1970-01-01 to the start of year y (for y at least 1970). -/
def daysBeforeYear (y : Nat) : Nat :=
  365 * (y - 1970) + (leapCount (y - 1) - leapCount 1969)

/-- Days from the start of year y to the start of month m. -/
def daysBeforeMonth (y : Nat) : Nat → Nat
  | 0 => 0
  | 1 => 0
  | m + 1 => daysBeforeMonth y m + daysInMonth y m

/-- Milliseconds since the Unix epoch of a broken-down UTC instant. -/
def epochMillis (y mo d hh mi ss ms : Nat) : Nat :=
  ((((daysBeforeYear y + daysBeforeMonth y mo + (d - 1)) * 24 + hh) * 60 + mi)
      * 60 + ss) * 1000 + ms

/-- Range checks of a broken-down instant, then its epoch value. -/
def mkInstant (y mo d hh mi ss ms : Nat) : Option Nat :=
  if 1970 ≤ y && y ≤ 9999 && 1 ≤ mo && mo ≤ 12 && 1 ≤ d && d ≤ daysInMonth y mo
      && hh ≤ 23 && mi ≤ 59 && ss ≤ 59 then
    some (epochMillis y mo d hh mi ss ms)
  else none

/-- Parses an ISO-8601 UTC timestamp of the canonical profile into epoch
milliseconds, the embedding of new Date(s).getTime() on well-formed input. -/
def parseISO (str : String) : Option Nat :=
  match str.data with
  | [y1, y2, y3, y4, '-', a1, a2, '-', b1, b2, 'T',
     h1, h2, ':', m1, m2, ':', c1, c2, 'Z'] => do
      let y ← d4 y1 y2 y3 y4
      let mo ← d2 a1 a2
      let dd ← d2 b1 b2
      let hh ← d2 h1 h2
      let mi ← d2 m1 m2
      let ss ← d2 c1 c2
      mkInstant y mo dd hh mi ss 0
  | [y1, y2, y3, y4, '-', a1, a2, '-', b1, b2, 'T',
     h1, h2, ':', m1, m2, ':', c1, c2, '.', f1, f2, f3, 'Z'] => do
      let y ← d4 y1 y2 y3 y4
      let mo ← d2 a1 a2
      let dd ← d2 b1 b2
      let hh ← d2 h1 h2
      let mi ← d2 m1 m2
      let ss ← d2 c1 c2
      let ms ← d3 f1 f2 f3
      mkInstant y mo dd hh mi ss ms
  | _ => none

/-- Sort key of a listed post: its parsed publication instant (0 when
unparsable, a case the spec leaves unspecified). -/
def timeKey (p : ListedPost) : Nat :=
  (parseISO p.publishedAt).getD 0

/-! ### The reconciler (PostList.tsx lines 60-87) -/

/-- Embeds the conversion of a LocalPost to the listed shape
(PostList.tsx lines 63-70). -/
def convertLocalPost (lp : LocalPost) : ListedPost :=
  { id := lp.id
    title := lp.title
    publishedAt := lp.publishedAt
    author := { name := lp.author.name } }

/-- One step of the dedup reduce (PostList.tsx lines 75-80): push the post
only when no accumulated post carries its id. -/
def dedupStep (acc : List ListedPost) (post : ListedPost) : List ListedPost :=
  if (acc.find? (fun p => p.id == post.id)).isSome then acc else acc ++ [post]

/-- Embeds the dedup reduce of PostList.tsx lines 75-80. -/
def dedupById (l : List ListedPost) : List ListedPost :=
  l.foldl dedupStep []

/-- Structural reformulation of the dedup reduce: keep the first occurrence
of every id not yet seen. Proved equal to dedupById below. -/
def dedupAux : List ListedPost → List String → List ListedPost
  | [], _ => []
  | p :: ps, seen =>
      if p.id ∈ seen then dedupAux ps seen
      else p :: dedupAux ps (seen ++ [p.id])

/-- Display order of the list view: a post comes no later than another when
its parsed publication instant is no smaller (descending by date,
PostList.tsx lines 83-87). -/
def postOrder (a b : ListedPost) : Prop :=
  timeKey b ≤ timeKey a

instance : DecidableRel postOrder := fun a b =>
  inferInstanceAs (Decidable (timeKey b ≤ timeKey a))

instance : IsTotal ListedPost postOrder :=
  ⟨fun a b => Nat.le_total (timeKey b) (timeKey a)⟩

instance : IsTrans ListedPost postOrder :=
  ⟨fun _ _ _ h1 h2 => Nat.le_trans h2 h1⟩

/-- Embeds the stable descending sort of PostList.tsx lines 83-87
(Array.prototype.sort is stable, comparator dateB - dateA). -/
def sortPostsDesc (l : List ListedPost) : List ListedPost :=
  List.insertionSort postOrder l

/-- Embeds the whole merge pipeline of PostList (lines 60-87): concatenate
server posts then converted local posts, dedup by id keeping the first
occurrence, and sort by publication instant descending. -/
def mergePosts (serverPosts : List ListedPost) (localPosts : List LocalPost) :
    List ListedPost :=
  sortPostsDesc (dedupById (serverPosts ++ localPosts.map convertLocalPost))

/-- Render states of the post list (PostList.tsx lines 48-55, 108-110):
there is no error state; a fetch error leaves data absent and falls into
the same path as an empty collection. -/
inductive ListView
  | loading
  | noPosts
  | listing (posts : List ListedPost)
deriving DecidableEq

/-- Embeds the render decision of PostList: loading spinner while loading;
otherwise merge data?.posts (treating an errored or absent result as the
empty collection, line 60) with the local posts, and show the no-posts
placeholder when the merged list is empty (line 108). -/
def renderPostList (isLoading : Bool) (data : Option (List ListedPost))
    (localPosts : List LocalPost) : ListView :=
  if isLoading then ListView.loading
  else
    let posts := mergePosts (data.getD []) localPosts
    if posts.length = 0 then ListView.noPosts else ListView.listing posts

/-! ### The fallback writer (PostForm.tsx) -/

/-- An entry of the fixed author list (PostForm.tsx lines 27-33). -/
structure AuthorEntry where
  id : String
  name : String
deriving DecidableEq

/-- The fixed author list of PostForm.tsx lines 27-33. -/
def AUTHORS : List AuthorEntry :=
  [⟨"1", "髙橋慶祐"⟩, ⟨"2", "佐藤太郎"⟩, ⟨"3", "鈴木花子"⟩,
   ⟨"4", "伊藤次郎"⟩, ⟨"5", "加藤三郎"⟩]

/-- Embeds the connectivity classification of PostForm.tsx line 135:
the message contains 'Failed to fetch', 'fetch' or 'Network'. -/
def isConnectivityError (msg : String) : Bool :=
  jsIncludes msg "Failed to fetch" || jsIncludes msg "fetch" || jsIncludes msg "Network"

/-- Embeds the visibility condition of the error banner
(PostForm.tsx line 227): shown exactly when the message matches none of the
three connectivity substrings. -/
def errorIsVisible (msg : String) : Bool :=
  !(jsIncludes msg "Failed to fetch" || jsIncludes msg "fetch" || jsIncludes msg "Network")

/-- The submitted create-mutation variables (PostForm.tsx lines 194-201):
tags is optional, mirroring tagsArray.length > 0 ? tagsArray : undefined. -/
structure CreateInput where
  title : String
  body : String
  tags : Option (List String)
  authorId : String
deriving DecidableEq

/-- Embeds selectedAuthor?.name || '不明' (PostForm.tsx lines 140-141). -/
def authorNameFor (aid : String) : String :=
  jsOrElse ((AUTHORS.find? (fun a => a.id == aid)).map (fun a => a.name)) "不明"

/-- Embeds the LocalPost synthesized on the fallback path
(PostForm.tsx lines 139-154): generated id, submitted fields, current
timestamp, resolved author name, no avatar. -/
def mkFallbackPost (input : CreateInput) (genId nowIso : String) : LocalPost :=
  { id := genId
    title := input.title
    body := input.body
    tags := input.tags.getD []
    publishedAt := nowIso
    author := { id := input.authorId, name := authorNameFor input.authorId, avatarUrl := none } }

/-- Observable outcome of the create-mutation error handler: the resulting
local collection, what was persisted, whether success is reported to the
caller, and the navigation target scheduled after the delay. -/
structure CreateErrorOutcome where
  store : List LocalPost
  savedPost : Option LocalPost
  reportsSuccess : Bool
  navigatesTo : Option String
deriving DecidableEq

/-- Embeds createMutation's onError handler (PostForm.tsx lines 131-179):
a connectivity-classified failure persists a synthesized LocalPost, shows
the success message and schedules navigation to the new detail page; any
other failure only logs, leaving the store untouched and success unsignalled. -/
def onCreateError (msg : String) (input : CreateInput) (genId nowIso : String)
    (posts : List LocalPost) : CreateErrorOutcome :=
  if isConnectivityError msg then
    let lp := mkFallbackPost input genId nowIso
    { store := upsertPost lp posts
      savedPost := some lp
      reportsSuccess := true
      navigatesTo := some ("/posts/" ++ lp.id) }
  else
    { store := posts
      savedPost := none
      reportsSuccess := false
      navigatesTo := none }

/-! ### The deletion flow (PostDetail) -/

/-- Observable events of the deletion flow, in order of occurrence. -/
inductive DelEvent
  | remoteReq
  | localRemove
  | refreshList
  | navigateHome
  | logError
deriving DecidableEq

/-- Embeds the event trace of deleteMutation (PostDetail lines 29-54):
the remote request is issued first; onSuccess removes a local_-prefixed id
from storage, refreshes the listing and navigates home; onError does the
same for a local_-prefixed id, and for any other id only logs the error. -/
def deleteFlow (id : String) (remoteOk : Bool) : List DelEvent :=
  DelEvent.remoteReq ::
    (if remoteOk then
      (if isLocalId id then [DelEvent.localRemove] else [])
        ++ [DelEvent.refreshList, DelEvent.navigateHome]
    else
      if isLocalId id then
        [DelEvent.localRemove, DelEvent.refreshList, DelEvent.navigateHome]
      else [DelEvent.logError])

/-- Effect of the deletion flow on the local collection: each response
handler removes the id exactly when it carries the local_ prefix. -/
def deleteFlowStore (id : String) (remoteOk : Bool) (posts : List LocalPost) :
    List LocalPost :=
  if remoteOk then
    if isLocalId id then removeId id posts else posts
  else
    if isLocalId id then removeId id posts else posts

/-! ### Concrete sample data for the witnesses -/

/-- Sample author record. -/
def wAuthor : PostAuthor := ⟨"1", "髙橋慶祐", none⟩

/-- Sample local post sharing id 1 with the remote entry. -/
def wLocalDup : LocalPost :=
  ⟨"1", "ローカル版A", "本文", [], "2024-01-01T00:00:00Z", wAuthor⟩

/-- Sample local-only post. -/
def wLocalOnly : LocalPost :=
  ⟨"local_999", "B", "本文", ["t"], "2024-06-01T00:00:00Z", wAuthor⟩

/-- Sample remote entry. -/
def wRemote : ListedPost :=
  ⟨"1", "A", "2024-01-01T00:00:00Z", ⟨"髙橋慶祐"⟩⟩

/-- Sample create-form input. -/
def wInput : CreateInput := ⟨"タイトル", "本文", some ["tag"], "7"⟩

/-- Sample replacement post sharing id 1 with wLocalDup. -/
def wReplacement : LocalPost :=
  ⟨"1", "新しい版", "本文2", [], "2024-02-01T00:00:00Z", wAuthor⟩

/-! ### Lemmas about the dedup pass -/

theorem find?_id_isSome (acc : List ListedPost) (i : String) :
    (acc.find? (fun q => q.id == i)).isSome = true ↔ i ∈ acc.map (fun q => q.id) := by
  simp only [List.find?_isSome, List.mem_map, beq_iff_eq]

theorem foldl_dedupStep (l : List ListedPost) :
    ∀ acc, l.foldl dedupStep acc = acc ++ dedupAux l (acc.map (fun p => p.id)) := by
  induction l with
  | nil => intro acc; simp [dedupAux]
  | cons p ps ih =>
    intro acc
    rw [List.foldl_cons]
    by_cases h : p.id ∈ acc.map (fun q => q.id)
    · have hstep : dedupStep acc p = acc := by
        simp [dedupStep, (find?_id_isSome acc p.id).mpr h]
      rw [hstep, ih acc]
      simp [dedupAux, h]
    · have hsome : ((acc.find? (fun q => q.id == p.id)).isSome = true) = False := by
        simp only [eq_iff_iff, iff_false]
        exact fun hc => h ((find?_id_isSome acc p.id).mp hc)
      have hstep : dedupStep acc p = acc ++ [p] := by
        simp [dedupStep, hsome]
      rw [hstep, ih (acc ++ [p])]
      simp [dedupAux, h, List.append_assoc]

theorem dedupById_eq_aux (l : List ListedPost) : dedupById l = dedupAux l [] := by
  simpa using foldl_dedupStep l []

theorem dedupAux_id_not_mem_seen :
    ∀ (l : List ListedPost) (seen : List String) (p : ListedPost),
      p ∈ dedupAux l seen → p.id ∉ seen := by
  intro l
  induction l with
  | nil => intro seen p hp; simp [dedupAux] at hp
  | cons q qs ih =>
    intro seen p hp
    by_cases h : q.id ∈ seen
    · rw [dedupAux, if_pos h] at hp
      exact ih seen p hp
    · rw [dedupAux, if_neg h] at hp
      rcases List.mem_cons.mp hp with rfl | hp
      · exact h
      · intro hmem
        exact ih (seen ++ [q.id]) p hp (List.mem_append_left _ hmem)

theorem dedupAux_nodup_ids :
    ∀ (l : List ListedPost) (seen : List String),
      ((dedupAux l seen).map (fun p => p.id)).Nodup := by
  intro l
  induction l with
  | nil => intro seen; simp [dedupAux]
  | cons q qs ih =>
    intro seen
    by_cases h : q.id ∈ seen
    · rw [dedupAux, if_pos h]; exact ih seen
    · rw [dedupAux, if_neg h]
      refine List.nodup_cons.mpr ⟨?_, ih (seen ++ [q.id])⟩
      intro hmem
      rcases List.mem_map.mp hmem with ⟨p, hp, hpid⟩
      exact dedupAux_id_not_mem_seen qs (seen ++ [q.id]) p hp
        (List.mem_append_right _ (hpid ▸ List.mem_singleton_self _))

theorem dedupAux_sublist :
    ∀ (l : List ListedPost) (seen : List String), List.Sublist (dedupAux l seen) l := by
  intro l
  induction l with
  | nil => intro seen; simp [dedupAux]
  | cons q qs ih =>
    intro seen
    by_cases h : q.id ∈ seen
    · rw [dedupAux, if_pos h]
      exact (ih seen).cons q
    · rw [dedupAux, if_neg h]
      exact (ih (seen ++ [q.id])).cons₂ q

theorem dedupAux_id_complete :
    ∀ (l : List ListedPost) (seen : List String) (i : String),
      i ∈ l.map (fun p => p.id) → i ∉ seen →
        i ∈ (dedupAux l seen).map (fun p => p.id) := by
  intro l
  induction l with
  | nil => intro seen i hi _; simp at hi
  | cons q qs ih =>
    intro seen i hi hns
    simp only [List.map_cons, List.mem_cons] at hi
    by_cases h : q.id ∈ seen
    · rw [dedupAux, if_pos h]
      rcases hi with rfl | hi
      · exact absurd h hns
      · exact ih seen i hi hns
    · rw [dedupAux, if_neg h]
      rcases hi with rfl | hi
      · simp
      · by_cases hqi : i = q.id
        · simp [hqi]
        · simp only [List.map_cons, List.mem_cons]
          refine Or.inr (ih (seen ++ [q.id]) i hi ?_)
          intro hmem
          rcases List.mem_append.mp hmem with hmem | hmem
          · exact hns hmem
          · exact hqi (List.mem_singleton.mp hmem)

theorem dedupAux_first_from_left :
    ∀ (l₁ : List ListedPost) (l₂ : List ListedPost) (seen : List String) (p : ListedPost),
      p ∈ dedupAux (l₁ ++ l₂) seen → p.id ∈ l₁.map (fun q => q.id) →
        p ∈ l₁ ∨ p.id ∈ seen := by
  intro l₁
  induction l₁ with
  | nil => intro l₂ seen p _ hid; simp at hid
  | cons a l₁ ih =>
    intro l₂ seen p hp hid
    rw [List.cons_append] at hp
    simp only [List.map_cons, List.mem_cons] at hid
    by_cases h : a.id ∈ seen
    · rw [dedupAux, if_pos h] at hp
      rcases hid with hpa | hid
      · exact Or.inr (hpa ▸ h)
      · rcases ih l₂ seen p hp hid with h' | h'
        · exact Or.inl (List.mem_cons_of_mem _ h')
        · exact Or.inr h'
    · rw [dedupAux, if_neg h] at hp
      rcases List.mem_cons.mp hp with rfl | hp
      · exact Or.inl (List.mem_cons_self _ _)
      · have hnot := dedupAux_id_not_mem_seen (l₁ ++ l₂) (seen ++ [a.id]) p hp
        have hpa : p.id ≠ a.id := fun hc =>
          hnot (List.mem_append_right _ (hc ▸ List.mem_singleton_self _))
        rcases hid with hid | hid
        · exact absurd hid hpa
        · rcases ih l₂ (seen ++ [a.id]) p hp hid with h' | h'
          · exact Or.inl (List.mem_cons_of_mem _ h')
          · rcases List.mem_append.mp h' with h'' | h''
            · exact Or.inr h''
            · exact absurd (List.mem_singleton.mp h'') hpa

/-! ### Lemmas about the sort pass -/

theorem sortPostsDesc_perm (l : List ListedPost) : (sortPostsDesc l).Perm l :=
  List.perm_insertionSort postOrder l

theorem sortPostsDesc_sorted (l : List ListedPost) :
    (sortPostsDesc l).Sorted postOrder :=
  List.sorted_insertionSort postOrder l

theorem filter_key_sortPostsDesc (l : List ListedPost) (t : Nat) :
    (sortPostsDesc l).filter (fun p => timeKey p == t) =
      l.filter (fun p => timeKey p == t) := by
  have hmem : ∀ q ∈ l.filter (fun p => timeKey p == t), timeKey q = t := by
    intro q hq
    simpa using (List.mem_filter.mp hq).2
  have hpair : (l.filter (fun p => timeKey p == t)).Pairwise postOrder := by
    apply List.pairwise_of_forall_mem_list
    intro a ha b hb
    show timeKey b ≤ timeKey a
    rw [hmem a ha, hmem b hb]
  have hsub : List.Sublist (l.filter (fun p => timeKey p == t)) (sortPostsDesc l) :=
    List.sublist_insertionSort hpair (List.filter_sublist l)
  have heq : (l.filter (fun p => timeKey p == t)).filter (fun p => timeKey p == t) =
      l.filter (fun p => timeKey p == t) :=
    List.filter_eq_self.mpr (fun a ha => (List.mem_filter.mp ha).2)
  have hsub2 : List.Sublist (l.filter (fun p => timeKey p == t))
      ((sortPostsDesc l).filter (fun p => timeKey p == t)) :=
    heq ▸ hsub.filter (fun p => timeKey p == t)
  have hperm : ((sortPostsDesc l).filter (fun p => timeKey p == t)).Perm
      (l.filter (fun p => timeKey p == t)) :=
    (sortPostsDesc_perm l).filter _
  exact (hsub2.eq_of_length hperm.length_eq.symm).symm

/-! ### Lemmas about the upsert -/

theorem jsFindIndex_none_iff (f : LocalPost → Bool) :
    ∀ l, jsFindIndex f l = none ↔ ∀ x ∈ l, f x = false := by
  intro l
  induction l with
  | nil => simp [jsFindIndex]
  | cons p ps ih =>
    by_cases h : f p
    · simp [jsFindIndex, h]
    · simp only [jsFindIndex, if_neg h, Option.map_eq_none', ih, List.mem_cons]
      constructor
      · intro hall x hx
        rcases hx with rfl | hx
        · exact Bool.eq_false_iff.mpr h
        · exact hall x hx
      · intro hall x hx
        exact hall x (Or.inr hx)

theorem jsFindIndex_some (f : LocalPost → Bool) :
    ∀ (l : List LocalPost) (i : Nat), jsFindIndex f l = some i →
      ∃ h : i < l.length, f (l.get ⟨i, h⟩) = true := by
  intro l
  induction l with
  | nil => intro i h; simp [jsFindIndex] at h
  | cons p ps ih =>
    intro i hi
    by_cases h : f p
    · simp only [jsFindIndex, if_pos h, Option.some.injEq] at hi
      subst hi
      exact ⟨Nat.succ_pos _, h⟩
    · simp only [jsFindIndex, if_neg h, Option.map_eq_some'] at hi
      obtain ⟨j, hj, rfl⟩ := hi
      obtain ⟨hlt, hf⟩ := ih j hj
      exact ⟨Nat.succ_lt_succ hlt, hf⟩

theorem mem_set_self (post : LocalPost) :
    ∀ (l : List LocalPost) (i : Nat), i < l.length → post ∈ l.set i post := by
  intro l
  induction l with
  | nil => intro i h; simp at h
  | cons p ps ih =>
    intro i h
    cases i with
    | zero => simp [List.set]
    | succ j =>
      simp only [List.set, List.mem_cons]
      exact Or.inr (ih j (Nat.lt_of_succ_lt_succ h))

theorem mem_upsertPost (post : LocalPost) (posts : List LocalPost) :
    post ∈ upsertPost post posts := by
  unfold upsertPost
  cases h : jsFindIndex (fun p => p.id == post.id) posts with
  | none => simp
  | some i =>
    obtain ⟨hlt, _⟩ := jsFindIndex_some _ posts i h
    exact mem_set_self post posts i hlt

example : parseISO "2024-01-01T00:00:00Z" = some 1704067200000 := by decide
example : parseISO "2024-06-01T12:30:05.250Z" = some 1717245005250 := by decide
example : parseISO "not a date" = none := by decide
example :
    mergePosts [wRemote] [wLocalDup, wLocalOnly] =
      [convertLocalPost wLocalOnly, wRemote] := by decide
example : isConnectivityError "Failed to fetch" = true := by decide
example : isConnectivityError "Validation failed: title required" = false := by decide

/-! ### Claim theorems: the reconciler -/

/-- C1: the merged list view contains each identifier exactly once — its
ids are nodup and are exactly the ids of the concatenation of the remote
collection followed by the converted local collection — and any merged
entry whose identifier also occurs remotely is itself one of the remote
entries, so for a shared identifier the remote entry's fields (title,
publishedAt, author name) are the ones present in the result. -/
theorem merge_dedup_unique_remote_wins (R : List ListedPost) (L : List LocalPost) :
    ((mergePosts R L).map (fun p => p.id)).Nodup ∧
    (∀ i : String, i ∈ (mergePosts R L).map (fun p => p.id) ↔
        i ∈ (R ++ L.map convertLocalPost).map (fun p => p.id)) ∧
    (∀ p ∈ mergePosts R L, p.id ∈ R.map (fun q => q.id) → p ∈ R) := by
  have haux : mergePosts R L = sortPostsDesc (dedupAux (R ++ L.map convertLocalPost) []) := by
    rw [mergePosts, dedupById_eq_aux]
  refine ⟨?_, ?_, ?_⟩
  · rw [haux]
    have hperm := (sortPostsDesc_perm (dedupAux (R ++ L.map convertLocalPost) [])).map
      (fun p : ListedPost => p.id)
    exact hperm.nodup_iff.mpr (dedupAux_nodup_ids _ [])
  · intro i
    rw [haux]
    have hperm := (sortPostsDesc_perm (dedupAux (R ++ L.map convertLocalPost) [])).map
      (fun p : ListedPost => p.id)
    rw [hperm.mem_iff]
    constructor
    · intro hi
      rcases List.mem_map.mp hi with ⟨p, hp, hpid⟩
      exact List.mem_map.mpr ⟨p, (dedupAux_sublist _ []).subset hp, hpid⟩
    · intro hi
      exact dedupAux_id_complete _ [] i hi (by simp)
  · intro p hp hid
    rw [haux] at hp
    have hp' := (sortPostsDesc_perm _).mem_iff.mp hp
    rcases dedupAux_first_from_left R (L.map convertLocalPost) [] p hp' hid with h | h
    · exact h
    · simp at h

/-- C1 witness: in the concrete merge of one remote entry with two local
entries (one sharing its id), the entry with the shared id 1 is the remote
one. -/
theorem merge_dedup_unique_remote_wins_witness :
    wRemote ∈ mergePosts [wRemote] [wLocalDup, wLocalOnly] ∧ wRemote ∈ [wRemote] :=
  ⟨by decide,
   (merge_dedup_unique_remote_wins [wRemote] [wLocalDup, wLocalOnly]).2.2 wRemote
     (by decide) (by decide)⟩

/-- C2: with well-formed ISO-8601 publication timestamps throughout, the
merged output is sorted by parsed publication instant descending, and for
every instant t the entries carrying t appear in the same relative order
as in the concatenation of the remote collection followed by the converted
local collection (the sort is stable and the dedup pass is
order-preserving). -/
theorem merge_sorted_stable (R : List ListedPost) (L : List LocalPost)
    (_hwf : ∀ p ∈ R ++ L.map convertLocalPost, (parseISO p.publishedAt).isSome = true) :
    (mergePosts R L).Sorted postOrder ∧
    ∀ t : Nat, List.Sublist ((mergePosts R L).filter (fun p => timeKey p == t))
        ((R ++ L.map convertLocalPost).filter (fun p => timeKey p == t)) := by
  refine ⟨sortPostsDesc_sorted _, ?_⟩
  intro t
  rw [mergePosts, filter_key_sortPostsDesc, dedupById_eq_aux]
  exact (dedupAux_sublist _ []).filter _

/-- C2 witness: the concrete merge is sorted descending, and its entries at
the June 2024 instant keep their original relative order. -/
theorem merge_sorted_stable_witness :
    (mergePosts [wRemote] [wLocalDup, wLocalOnly]).Sorted postOrder ∧
    List.Sublist
      ((mergePosts [wRemote] [wLocalDup, wLocalOnly]).filter
        (fun p => timeKey p == 1717200000000))
      (([wRemote] ++ [wLocalDup, wLocalOnly].map convertLocalPost).filter
        (fun p => timeKey p == 1717200000000)) :=
  ⟨(merge_sorted_stable [wRemote] [wLocalDup, wLocalOnly] (by decide)).1,
   (merge_sorted_stable [wRemote] [wLocalDup, wLocalOnly] (by decide)).2 1717200000000⟩

/-- C8: an errored or absent remote result is rendered exactly like an
empty remote collection; with both collections empty the view is the
no-posts placeholder, which differs from the loading state; and every
render outcome is loading, no-posts or a listing — there is no error
state. -/
theorem list_view_empty_no_error :
    (∀ localPosts, renderPostList false none localPosts =
        renderPostList false (some []) localPosts) ∧
    renderPostList false none [] = ListView.noPosts ∧
    renderPostList false (some []) [] = ListView.noPosts ∧
    ListView.noPosts ≠ ListView.loading ∧
    (∀ (isLoading : Bool) (data : Option (List ListedPost)) (localPosts : List LocalPost),
        renderPostList isLoading data localPosts = ListView.loading ∨
        renderPostList isLoading data localPosts = ListView.noPosts ∨
        ∃ posts, renderPostList isLoading data localPosts = ListView.listing posts) := by
  refine ⟨fun lp => rfl, by decide, by decide, by decide, ?_⟩
  intro il d lp
  cases il with
  | true => exact Or.inl rfl
  | false =>
    by_cases h : (mergePosts (d.getD []) lp).length = 0
    · exact Or.inr (Or.inl (by simp [renderPostList, h]))
    · exact Or.inr (Or.inr ⟨mergePosts (d.getD []) lp, by simp [renderPostList, h]⟩)

/-- C8 witness: concrete empty render and the distinctness of the states. -/
theorem list_view_empty_no_error_witness :
    renderPostList false none [] = ListView.noPosts ∧
    ListView.noPosts ≠ ListView.loading :=
  ⟨list_view_empty_no_error.2.1, list_view_empty_no_error.2.2.2.1⟩

/-! ### Claim theorems: the fallback writer -/

theorem strStarts_append_self (pre : List Char) :
    ∀ rest, strStarts (pre ++ rest) pre = true := by
  induction pre with
  | nil => intro rest; cases rest <;> rfl
  | cons c cs ih => intro rest; simp [strStarts, ih rest]

theorem generateLocalPostId_starts (t : Nat) (rand : String) :
    strStarts (generateLocalPostId t rand).data "local_".data = true := by
  have hdata : (generateLocalPostId t rand).data =
      "local_".data ++ ((toString t).data ++ ("_".data ++ rand.data)) := by
    simp [generateLocalPostId, List.append_assoc]
  rw [hdata]
  exact strStarts_append_self _ _

/-- C3: a create failure whose message is exactly "Failed to fetch" is
classified as a connectivity failure: the handler persists the synthesized
LocalPost (whose identifier starts with local_) into the collection and
reports success; a failure whose message is "Validation failed: title
required" persists nothing, reports no success, and is shown as a visible
error. -/
theorem fallback_classification (input : CreateInput) (t : Nat)
    (rand nowIso : String) (posts : List LocalPost) :
    ((onCreateError "Failed to fetch" input (generateLocalPostId t rand) nowIso posts).reportsSuccess = true ∧
     (onCreateError "Failed to fetch" input (generateLocalPostId t rand) nowIso posts).savedPost =
       some (mkFallbackPost input (generateLocalPostId t rand) nowIso) ∧
     (onCreateError "Failed to fetch" input (generateLocalPostId t rand) nowIso posts).store =
       upsertPost (mkFallbackPost input (generateLocalPostId t rand) nowIso) posts ∧
     mkFallbackPost input (generateLocalPostId t rand) nowIso ∈
       (onCreateError "Failed to fetch" input (generateLocalPostId t rand) nowIso posts).store ∧
     strStarts (mkFallbackPost input (generateLocalPostId t rand) nowIso).id.data
       "local_".data = true) ∧
    ((onCreateError "Validation failed: title required" input (generateLocalPostId t rand) nowIso posts).store = posts ∧
     (onCreateError "Validation failed: title required" input (generateLocalPostId t rand) nowIso posts).savedPost = none ∧
     (onCreateError "Validation failed: title required" input (generateLocalPostId t rand) nowIso posts).reportsSuccess = false ∧
     errorIsVisible "Validation failed: title required" = true) := by
  have h1 : isConnectivityError "Failed to fetch" = true := by decide
  have h2 : isConnectivityError "Validation failed: title required" = false := by decide
  refine ⟨⟨by simp [onCreateError, h1], by simp [onCreateError, h1],
          by simp [onCreateError, h1], ?_, generateLocalPostId_starts t rand⟩,
         by simp [onCreateError, h2], by simp [onCreateError, h2],
         by simp [onCreateError, h2], by decide⟩
  simp only [onCreateError, h1, if_pos]
  exact mem_upsertPost _ posts

/-- C3 witness: concrete run of both branches of the classifier. -/
theorem fallback_classification_witness :
    (onCreateError "Failed to fetch" wInput (generateLocalPostId 12345 "abc")
      "2024-06-02T00:00:00Z" []).reportsSuccess = true ∧
    (onCreateError "Validation failed: title required" wInput
      (generateLocalPostId 12345 "abc") "2024-06-02T00:00:00Z" []).store = [] :=
  ⟨(fallback_classification wInput 12345 "abc" "2024-06-02T00:00:00Z" []).1.1,
   (fallback_classification wInput 12345 "abc" "2024-06-02T00:00:00Z" []).2.1⟩

/-- C9: every generated local identifier has the shape
local_(timestamp)_(random suffix) and hence starts with local_; on any
connectivity-classified create failure the persisted LocalPost is made of
that identifier, the submitted title, body, tags and author id, and the
current timestamp as its publication time. -/
theorem local_post_generation (t : Nat) (rand : String) (input : CreateInput)
    (nowIso : String) (posts : List LocalPost) (msg : String)
    (hmsg : isConnectivityError msg = true) :
    generateLocalPostId t rand = "local_" ++ toString t ++ "_" ++ rand ∧
    strStarts (generateLocalPostId t rand).data "local_".data = true ∧
    (onCreateError msg input (generateLocalPostId t rand) nowIso posts).savedPost =
      some (mkFallbackPost input (generateLocalPostId t rand) nowIso) ∧
    (mkFallbackPost input (generateLocalPostId t rand) nowIso).id =
      generateLocalPostId t rand ∧
    (mkFallbackPost input (generateLocalPostId t rand) nowIso).title = input.title ∧
    (mkFallbackPost input (generateLocalPostId t rand) nowIso).body = input.body ∧
    (mkFallbackPost input (generateLocalPostId t rand) nowIso).tags = input.tags.getD [] ∧
    (mkFallbackPost input (generateLocalPostId t rand) nowIso).author.id = input.authorId ∧
    (mkFallbackPost input (generateLocalPostId t rand) nowIso).publishedAt = nowIso := by
  refine ⟨rfl, generateLocalPostId_starts t rand, ?_, rfl, rfl, rfl, rfl, rfl, rfl⟩
  simp [onCreateError, hmsg]

/-- C9 witness: concrete generated identifier carries the local_ prefix on
a connectivity failure. -/
theorem local_post_generation_witness :
    strStarts (generateLocalPostId 12345 "abc").data "local_".data = true :=
  (local_post_generation 12345 "abc" wInput "2024-06-01T00:00:00Z" []
    "Failed to fetch" (by decide)).2.1

/-- C10: the fixed author ids are exactly 1-5; a submitted author id
outside them resolves to the placeholder 不明 while the persisted post
keeps the submitted id; an id among the five resolves to that author's
name. -/
theorem author_name_resolution :
    AUTHORS.map (fun a => a.id) = ["1", "2", "3", "4", "5"] ∧
    (∀ aid : String, aid ∉ AUTHORS.map (fun a => a.id) → authorNameFor aid = "不明") ∧
    (∀ a ∈ AUTHORS, authorNameFor a.id = a.name) ∧
    (∀ (input : CreateInput) (genId nowIso : String),
      (mkFallbackPost input genId nowIso).author.id = input.authorId ∧
      (mkFallbackPost input genId nowIso).author.name = authorNameFor input.authorId) := by
  refine ⟨by decide, ?_, by decide, fun input genId nowIso => ⟨rfl, rfl⟩⟩
  intro aid hna
  have hnone : AUTHORS.find? (fun a => a.id == aid) = none := by
    rw [List.find?_eq_none]
    intro a ha hc
    exact hna (List.mem_map.mpr ⟨a, ha, by simpa using hc⟩)
  simp [authorNameFor, hnone, jsOrElse]

/-- C10 witness: the unknown id 7 resolves to the placeholder and is kept
as the persisted author id. -/
theorem author_name_resolution_witness :
    authorNameFor "7" = "不明" ∧
    (mkFallbackPost wInput "local_1_a" "2024-06-01T00:00:00Z").author.id = "7" :=
  ⟨author_name_resolution.2.1 "7" (by decide),
   (author_name_resolution.2.2.2 wInput "local_1_a" "2024-06-01T00:00:00Z").1⟩

/-! ### Claim theorems: deletion and persistence -/

/-- C4 counterexample: the claim fails on the code in two places. The
remote deletion request is issued before any local-storage removal (the
trace of deleting local_12345_abc starts with the remote request), and for
the non-local identifier 42 a failed remote deletion neither refreshes the
listing nor navigates away — it is only logged — so the operation does not
complete from the caller's perspective as the claim states. -/
theorem delete_flow_claim_fails :
    deleteFlow "local_12345_abc" true =
      [DelEvent.remoteReq, DelEvent.localRemove, DelEvent.refreshList,
       DelEvent.navigateHome] ∧
    DelEvent.navigateHome ∉ deleteFlow "42" false ∧
    DelEvent.refreshList ∉ deleteFlow "42" false ∧
    DelEvent.logError ∈ deleteFlow "42" false := by
  decide

/-- C4 amended: the remote deletion is always requested first; for a
local_-prefixed identifier the response handlers (on success and on
failure alike) remove it from local storage, refresh the listing and
navigate away; for a non-local identifier a failed remote deletion only
logs the failure — no local change, no refresh and no navigation — and in
every case the effect on local storage is independent of the remote
outcome. -/
theorem delete_flow_spec (id : String) (ok : Bool) :
    (deleteFlow id ok).head? = some DelEvent.remoteReq ∧
    (isLocalId id = true →
      DelEvent.localRemove ∈ deleteFlow id ok ∧
      DelEvent.refreshList ∈ deleteFlow id ok ∧
      DelEvent.navigateHome ∈ deleteFlow id ok) ∧
    (isLocalId id = false → DelEvent.localRemove ∉ deleteFlow id ok) ∧
    (isLocalId id = false → ok = false →
      DelEvent.refreshList ∉ deleteFlow id ok ∧
      DelEvent.navigateHome ∉ deleteFlow id ok ∧
      DelEvent.logError ∈ deleteFlow id ok) ∧
    (∀ posts, deleteFlowStore id true posts = deleteFlowStore id false posts) := by
  cases ok <;> cases hl : isLocalId id <;>
    simp [deleteFlow, deleteFlowStore, hl]

/-- C4 witness: concrete traces of the amended deletion behaviour. -/
theorem delete_flow_spec_witness :
    DelEvent.localRemove ∈ deleteFlow "local_12345_abc" false ∧
    DelEvent.navigateHome ∉ deleteFlow "42" false :=
  ⟨((delete_flow_spec "local_12345_abc" false).2.1 (by decide)).1,
   ((delete_flow_spec "42" false).2.2.2.1 (by decide) rfl).2.1⟩

/-- C5: deleting a non-local identifier leaves the local collection
untouched whatever the remote outcome; deleting a local_-prefixed
identifier removes exactly the entries carrying that identifier, keeping
every other entry (with its multiplicity and relative order). -/
theorem delete_frame_effect (id : String) (posts : List LocalPost) :
    (isLocalId id = false → ∀ ok, deleteFlowStore id ok posts = posts) ∧
    (isLocalId id = true → ∀ ok,
      List.Sublist (deleteFlowStore id ok posts) posts ∧
      (∀ q : LocalPost, q.id = id → q ∉ deleteFlowStore id ok posts) ∧
      (∀ q : LocalPost, q.id ≠ id →
        (deleteFlowStore id ok posts).count q = posts.count q)) ∧
    isLocalId "local_12345_abc" = true ∧ isLocalId "42" = false := by
  refine ⟨?_, ?_, by decide, by decide⟩
  · intro h ok
    cases ok <;> simp [deleteFlowStore, h]
  · intro h ok
    have hstore : deleteFlowStore id ok posts = removeId id posts := by
      cases ok <;> simp [deleteFlowStore, h]
    rw [hstore]
    refine ⟨List.filter_sublist posts, ?_, ?_⟩
    · intro q hq hmem
      have hne := (List.mem_filter.mp hmem).2
      simp [hq] at hne
    · intro q hq
      unfold removeId
      rw [List.count_filter (by simp [hq])]

/-- C5 witness: deleting 42 keeps the sample collection; deleting
local_999 removes the sample local-only entry. -/
theorem delete_frame_effect_witness :
    deleteFlowStore "42" true [wLocalOnly] = [wLocalOnly] ∧
    wLocalOnly ∉ deleteFlowStore "local_999" false [wLocalOnly] :=
  ⟨(delete_frame_effect "42" [wLocalOnly]).1 (by decide) true,
   ((delete_frame_effect "local_999" [wLocalOnly]).2.1 (by decide) false).2.1
     wLocalOnly rfl⟩

/-- C6: saving a post whose identifier is already present replaces the
first entry carrying that identifier in place — same position, same
collection size; saving a post with a fresh identifier appends it, growing
the collection by one and leaving the existing entries unchanged. -/
theorem upsert_in_place_or_append (post : LocalPost) (posts : List LocalPost) :
    ((∃ p ∈ posts, p.id = post.id) →
      (upsertPost post posts).length = posts.length ∧
      ∃ i : Nat, ∃ h : i < posts.length,
        (posts.get ⟨i, h⟩).id = post.id ∧ upsertPost post posts = posts.set i post) ∧
    ((∀ p ∈ posts, p.id ≠ post.id) → upsertPost post posts = posts ++ [post]) := by
  constructor
  · intro hex
    have hne : jsFindIndex (fun p => p.id == post.id) posts ≠ none := by
      intro hnone
      obtain ⟨p, hp, hpid⟩ := hex
      have := (jsFindIndex_none_iff _ posts).mp hnone p hp
      simp [hpid] at this
    cases h : jsFindIndex (fun p => p.id == post.id) posts with
    | none => exact absurd h hne
    | some i =>
      obtain ⟨hlt, hf⟩ := jsFindIndex_some _ posts i h
      have heq : upsertPost post posts = posts.set i post := by
        unfold upsertPost
        rw [h]
      refine ⟨by rw [heq, List.length_set], i, hlt, ?_, heq⟩
      simpa using hf
  · intro hall
    have hnone : jsFindIndex (fun p => p.id == post.id) posts = none := by
      rw [jsFindIndex_none_iff]
      intro x hx
      simpa using hall x hx
    unfold upsertPost
    rw [hnone]

/-- C6 witness: replacing the entry with shared id 1 keeps the size;
saving against a collection without the id appends. -/
theorem upsert_in_place_or_append_witness :
    (upsertPost wReplacement [wLocalDup]).length = [wLocalDup].length ∧
    upsertPost wReplacement [wLocalOnly] = [wLocalOnly] ++ [wReplacement] :=
  ⟨((upsert_in_place_or_append wReplacement [wLocalDup]).1
      ⟨wLocalDup, by decide, rfl⟩).1,
   (upsert_in_place_or_append wReplacement [wLocalOnly]).2 (by decide)⟩

/-- C7: the persistence operations are total functions of the storage
state — get-all yields the empty collection on an absent or corrupted
entry (and the stored collection otherwise), a failing or window-less
environment turns save-one and delete-one into no-ops, and get-one yields
a member of the collection carrying the requested identifier or nothing;
no operation can throw, every try/catch arm being embedded by its fallback
value. -/
theorem storage_ops_total (env : StorageEnv) (s : RawStore) (post : LocalPost)
    (id : String) (l : List LocalPost) :
    getLocalPosts env RawStore.absent = [] ∧
    getLocalPosts env RawStore.corrupt = [] ∧
    (env.hasWindow = true → getLocalPosts env (RawStore.good l) = l) ∧
    (env.hasWindow = false → getLocalPosts env s = []) ∧
    (env.hasWindow = false ∨ env.writeFails = true →
      saveLocalPost env post s = s ∧ deleteLocalPost env id s = s) ∧
    (∀ p, getLocalPost env id s = some p → p ∈ getLocalPosts env s ∧ p.id = id) := by
  refine ⟨?_, ?_, ?_, ?_, ?_, ?_⟩
  · cases hw : env.hasWindow <;> simp [getLocalPosts, hw]
  · cases hw : env.hasWindow <;> simp [getLocalPosts, hw]
  · intro hw
    simp [getLocalPosts, hw]
  · intro hw
    simp [getLocalPosts, hw]
  · rintro (hw | hwf)
    · exact ⟨by simp [saveLocalPost, hw], by simp [deleteLocalPost, hw]⟩
    · cases hw : env.hasWindow
      · exact ⟨by simp [saveLocalPost, hw], by simp [deleteLocalPost, hw]⟩
      · exact ⟨by simp [saveLocalPost, hw, hwf], by simp [deleteLocalPost, hw, hwf]⟩
  · intro p hp
    unfold getLocalPost at hp
    refine ⟨List.mem_of_find?_eq_some hp, ?_⟩
    simpa using List.find?_some hp

/-- C7 witness: a failing write degrades to a no-op and a corrupted store
reads back as the empty collection. -/
theorem storage_ops_total_witness :
    saveLocalPost ⟨true, true⟩ wLocalOnly (RawStore.good []) = RawStore.good [] ∧
    getLocalPosts ⟨true, false⟩ RawStore.corrupt = [] :=
  ⟨((storage_ops_total ⟨true, true⟩ (RawStore.good []) wLocalOnly "x" []).2.2.2.2.1
      (Or.inr rfl)).1,
   (storage_ops_total ⟨true, false⟩ RawStore.corrupt wLocalOnly "x" []).2.1⟩
